import Mathlib

/-!
Verification of the graph-construction-and-ranking core of
`src/lab2_LEE_CHERN_ERN.py`.

The Python code builds an undirected `networkx` graph from a sequence of
name pairs (`generate_network`, via `nx.from_pandas_edgelist`), computes
`nx.density`, and ranks nodes by `nx.degree_centrality`
(`get_top_proteins`, via the stable Python `sorted` with key
`lambda x: -x[1]` and the slice `[:n]`).

The embedding below models the networkx data structures and the exact
library routines the script calls:
* a `Graph` is a node list in insertion order plus an edge list in
  first-insertion orientation (networkx dicts preserve insertion order);
* `add_edge` registers both endpoints and stores the edge unless the
  unordered pair is already present; self-loops ARE stored, as in
  networkx;
* `degree` counts a self-loop twice, as `nx.Graph.degree` does;
* `degree_centrality` returns 1 for every node when the graph has at
  most one node and `degree * (1 / (|V| - 1))` otherwise, following the
  networkx source;
* `density` follows the networkx source: `0` when `m = 0` or `n <= 1`,
  else `m / (n * (n - 1))` doubled for an undirected graph;
* `get_top_proteins` sorts the centrality items by descending score with
  a stable sort and applies the Python slice semantics of `[:n]`, where
  a negative `n` keeps all but the last `-n` items.
Python floats are modelled by `ℚ`.
-/

namespace Lab2

/-- A networkx-style undirected graph: nodes in insertion order, edges in
insertion order, each stored once in first-seen orientation. -/
structure Graph where
  nodes : List String
  edges : List (String × String)
deriving DecidableEq, Repr

/-- Register a node, preserving insertion order (networkx dict key add). -/
def addNode (ns : List String) (u : String) : List String :=
  if u ∈ ns then ns else ns ++ [u]

/-- The unordered pair {u, v} is already stored (networkx adjacency test). -/
def hasEdge (es : List (String × String)) (u v : String) : Prop :=
  (u, v) ∈ es ∨ (v, u) ∈ es

instance (es : List (String × String)) (u v : String) : Decidable (hasEdge es u v) :=
  inferInstanceAs (Decidable (_ ∨ _))

/-- `nx.Graph.add_edge`: registers both endpoints as nodes and stores the
edge unless the unordered pair is already present.  Self-loops are stored. -/
def add_edge (G : Graph) (u v : String) : Graph where
  nodes := addNode (addNode G.nodes u) v
  edges := if hasEdge G.edges u v then G.edges else G.edges ++ [(u, v)]

/-- Fold the pairs into a starting graph; `generate_network` starts from
the empty graph. -/
def genFrom (G : Graph) (pairs : List (String × String)) : Graph :=
  pairs.foldl (fun H p => add_edge H p.1 p.2) G

/-- `generate_network`: builds the graph from the processed edge list
(`nx.from_pandas_edgelist` adds the pair of every row in order; an empty
dataframe yields the empty `nx.Graph()`). -/
def generate_network (pairs : List (String × String)) : Graph :=
  genFrom ⟨[], []⟩ pairs

def number_of_nodes (G : Graph) : ℕ := G.nodes.length

def number_of_edges (G : Graph) : ℕ := G.edges.length

/-- `nx.Graph.degree`: each incident edge counts once, a self-loop twice. -/
def degree (G : Graph) (v : String) : ℕ :=
  (G.edges.map (fun e => (if e.1 = v then 1 else 0) + (if e.2 = v then 1 else 0))).sum

/-- `nx.degree_centrality`: `{n: 1 for n in G}` when `len(G) <= 1`, else
`{n: d * s for n, d in G.degree()}` with `s = 1 / (len(G) - 1)`;
iteration order is node insertion order. -/
def degree_centrality (G : Graph) : List (String × ℚ) :=
  if number_of_nodes G ≤ 1 then
    G.nodes.map (fun n => (n, (1 : ℚ)))
  else
    G.nodes.map (fun n => (n, (degree G n : ℚ) * (1 / ((number_of_nodes G : ℚ) - 1))))

/-- `nx.density`: 0 when there are no edges or at most one node, otherwise
`m / (n * (n - 1))` doubled for an undirected graph. -/
def density (G : Graph) : ℚ :=
  if number_of_edges G = 0 ∨ number_of_nodes G ≤ 1 then 0
  else (number_of_edges G : ℚ) / ((number_of_nodes G : ℚ) * ((number_of_nodes G : ℚ) - 1)) * 2

/-- The comparison realised by the stable Python `sorted` with key
`lambda x: -x[1]`: `x` may precede `y` exactly when `x.2 ≥ y.2`. -/
def centGE (x y : String × ℚ) : Prop := y.2 ≤ x.2

instance : DecidableRel centGE :=
  fun x y => inferInstanceAs (Decidable (y.2 ≤ x.2))

instance : IsTotal (String × ℚ) centGE :=
  ⟨fun a b => le_total b.2 a.2⟩

instance : IsTrans (String × ℚ) centGE :=
  ⟨fun _ _ _ h1 h2 => le_trans h2 h1⟩

/-- The centrality items sorted by descending score; insertion sort with
the non-strict comparison is stable, matching the Python `sorted`. -/
def sortedCentrality (G : Graph) : List (String × ℚ) :=
  List.insertionSort centGE (degree_centrality G)

/-- Python slice `l[:n]`: the first `n` items when `n ≥ 0`, all but the
last `-n` items when `n < 0`. -/
def pyTake (n : ℤ) (l : List (String × ℚ)) : List (String × ℚ) :=
  if 0 ≤ n then l.take n.toNat else l.take ((l.length : ℤ) + n).toNat

/-- `get_top_proteins`: `sorted(degree_centrality.items(), key=lambda x: -x[1])[:n]`. -/
def get_top_proteins (G : Graph) (n : ℤ) : List (String × ℚ) :=
  pyTake n (sortedCentrality G)

/-- Node set of a graph, as a set. -/
def nodeSet (G : Graph) : Set String := {u | u ∈ G.nodes}

/-- Edge set of a graph, as the set of ordered pairs whose unordered pair
is stored. -/
def edgeSet (G : Graph) : Set (String × String) := {p | hasEdge G.edges p.1 p.2}

/-- An edge is incident to `v` when `v` is one of its endpoints. -/
def incident (v : String) (e : String × String) : Bool :=
  decide (e.1 = v) || decide (e.2 = v)

/-- The endpoint of `e` other than `v` (for a non-loop edge incident to `v`). -/
def otherEnd (v : String) (e : String × String) : String :=
  if e.1 = v then e.2 else e.1

/-- Two ordered pairs denote different unordered edges. -/
def distinctUnordered (e f : String × String) : Prop :=
  e ≠ f ∧ e ≠ (f.2, f.1)

/-- Structural invariant maintained by networkx graph construction: node
list without duplicates, every edge endpoint registered, and no unordered
pair stored twice. -/
def Inv (G : Graph) : Prop :=
  G.nodes.Nodup ∧ (∀ e ∈ G.edges, e.1 ∈ G.nodes ∧ e.2 ∈ G.nodes) ∧
    G.edges.Pairwise distinctUnordered

theorem mem_addNode {ns : List String} {u x : String} :
    x ∈ addNode ns u ↔ x ∈ ns ∨ x = u := by
  unfold addNode
  by_cases h : u ∈ ns
  · rw [if_pos h]
    constructor
    · exact Or.inl
    · rintro (hx | rfl)
      · exact hx
      · exact h
  · rw [if_neg h]
    simp

theorem addNode_nodup {ns : List String} {u : String} (h : ns.Nodup) :
    (addNode ns u).Nodup := by
  unfold addNode
  by_cases hu : u ∈ ns
  · rw [if_pos hu]
    exact h
  · rw [if_neg hu]
    simp [List.nodup_append, h, hu]

theorem hasEdge_symm {es : List (String × String)} {u v : String} :
    hasEdge es u v ↔ hasEdge es v u := by
  unfold hasEdge
  exact or_comm

theorem hasEdge_append_single {es : List (String × String)} {u v a b : String} :
    hasEdge (es ++ [(u, v)]) a b ↔
      hasEdge es a b ∨ ((a = u ∧ b = v) ∨ (a = v ∧ b = u)) := by
  unfold hasEdge
  simp only [List.mem_append, List.mem_singleton, Prod.mk.injEq]
  tauto

theorem mem_add_edge_nodes {G : Graph} {u v x : String} :
    x ∈ (add_edge G u v).nodes ↔ x ∈ G.nodes ∨ x = u ∨ x = v := by
  unfold add_edge
  simp only [mem_addNode]
  tauto

theorem nodes_mono_add_edge {G : Graph} {u v x : String} (h : x ∈ G.nodes) :
    x ∈ (add_edge G u v).nodes :=
  mem_add_edge_nodes.mpr (Or.inl h)

theorem hasEdge_add_edge_self {G : Graph} (u v : String) :
    hasEdge (add_edge G u v).edges u v := by
  unfold add_edge
  by_cases h : hasEdge G.edges u v
  · rw [if_pos h]
    exact h
  · rw [if_neg h]
    exact hasEdge_append_single.mpr (Or.inr (Or.inl ⟨rfl, rfl⟩))

theorem hasEdge_mono_add_edge {G : Graph} {u v a b : String}
    (h : hasEdge G.edges a b) : hasEdge (add_edge G u v).edges a b := by
  unfold add_edge
  by_cases hc : hasEdge G.edges u v
  · rw [if_pos hc]
    exact h
  · rw [if_neg hc]
    exact hasEdge_append_single.mpr (Or.inl h)

theorem genFrom_cons (G : Graph) (p : String × String) (pairs : List (String × String)) :
    genFrom G (p :: pairs) = genFrom (add_edge G p.1 p.2) pairs := rfl

theorem genFrom_append (G : Graph) (l1 l2 : List (String × String)) :
    genFrom G (l1 ++ l2) = genFrom (genFrom G l1) l2 :=
  List.foldl_append _ _ _ _

theorem nodes_mono_genFrom {G : Graph} {x : String} (pairs : List (String × String))
    (h : x ∈ G.nodes) : x ∈ (genFrom G pairs).nodes := by
  induction pairs generalizing G with
  | nil => exact h
  | cons p rest ih =>
      rw [genFrom_cons]
      exact ih (nodes_mono_add_edge h)

theorem hasEdge_mono_genFrom {G : Graph} {a b : String} (pairs : List (String × String))
    (h : hasEdge G.edges a b) : hasEdge (genFrom G pairs).edges a b := by
  induction pairs generalizing G with
  | nil => exact h
  | cons p rest ih =>
      rw [genFrom_cons]
      exact ih (hasEdge_mono_add_edge h)

theorem mem_pairs_nodes {G : Graph} {u v : String} {pairs : List (String × String)}
    (h : (u, v) ∈ pairs) :
    u ∈ (genFrom G pairs).nodes ∧ v ∈ (genFrom G pairs).nodes := by
  induction pairs generalizing G with
  | nil => cases h
  | cons p rest ih =>
      rw [genFrom_cons]
      rcases List.mem_cons.mp h with hp | hp
      · subst hp
        constructor
        · exact nodes_mono_genFrom rest (mem_add_edge_nodes.mpr (Or.inr (Or.inl rfl)))
        · exact nodes_mono_genFrom rest (mem_add_edge_nodes.mpr (Or.inr (Or.inr rfl)))
      · exact ih hp

theorem mem_pairs_hasEdge {G : Graph} {u v : String} {pairs : List (String × String)}
    (h : (u, v) ∈ pairs) : hasEdge (genFrom G pairs).edges u v := by
  induction pairs generalizing G with
  | nil => cases h
  | cons p rest ih =>
      rw [genFrom_cons]
      rcases List.mem_cons.mp h with hp | hp
      · subst hp
        exact hasEdge_mono_genFrom rest (hasEdge_add_edge_self u v)
      · exact ih hp

theorem inv_add_edge {G : Graph} (h : Inv G) (u v : String) : Inv (add_edge G u v) := by
  obtain ⟨hnd, hcl, hpw⟩ := h
  refine ⟨addNode_nodup (addNode_nodup hnd), ?_, ?_⟩
  · intro e he
    unfold add_edge at he
    by_cases hc : hasEdge G.edges u v
    · rw [if_pos hc] at he
      exact ⟨nodes_mono_add_edge (hcl e he).1, nodes_mono_add_edge (hcl e he).2⟩
    · rw [if_neg hc] at he
      rcases List.mem_append.mp he with he | he
      · exact ⟨nodes_mono_add_edge (hcl e he).1, nodes_mono_add_edge (hcl e he).2⟩
      · rw [List.mem_singleton] at he
        subst he
        constructor
        · exact mem_add_edge_nodes.mpr (Or.inr (Or.inl rfl))
        · exact mem_add_edge_nodes.mpr (Or.inr (Or.inr rfl))
  · show ((add_edge G u v).edges).Pairwise distinctUnordered
    unfold add_edge
    by_cases hc : hasEdge G.edges u v
    · rw [if_pos hc]
      exact hpw
    · rw [if_neg hc]
      rw [List.pairwise_append]
      refine ⟨hpw, List.pairwise_singleton _ _, ?_⟩
      intro e he f hf
      rw [List.mem_singleton] at hf
      subst hf
      unfold hasEdge at hc
      push_neg at hc
      constructor
      · intro hef
        exact hc.1 (hef ▸ he)
      · intro hef
        exact hc.2 (hef ▸ he)

theorem inv_genFrom {G : Graph} (h : Inv G) (pairs : List (String × String)) :
    Inv (genFrom G pairs) := by
  induction pairs generalizing G with
  | nil => exact h
  | cons p rest ih =>
      rw [genFrom_cons]
      exact ih (inv_add_edge h p.1 p.2)

theorem inv_generate_network (pairs : List (String × String)) :
    Inv (generate_network pairs) := by
  refine inv_genFrom ⟨List.nodup_nil, ?_, List.Pairwise.nil⟩ pairs
  intro e he
  cases he

theorem noLoops_genFrom {G : Graph} {pairs : List (String × String)}
    (hG : ∀ e ∈ G.edges, e.1 ≠ e.2) (hp : ∀ p ∈ pairs, p.1 ≠ p.2) :
    ∀ e ∈ (genFrom G pairs).edges, e.1 ≠ e.2 := by
  induction pairs generalizing G with
  | nil => exact hG
  | cons p rest ih =>
      rw [genFrom_cons]
      refine ih ?_ (fun q hq => hp q (List.mem_cons_of_mem _ hq))
      intro e he
      unfold add_edge at he
      by_cases hc : hasEdge G.edges p.1 p.2
      · rw [if_pos hc] at he
        exact hG e he
      · rw [if_neg hc] at he
        rcases List.mem_append.mp he with he | he
        · exact hG e he
        · rw [List.mem_singleton] at he
          subst he
          exact hp p (List.mem_cons_self _ _)

theorem sum_contrib (v : String) (es : List (String × String))
    (h : ∀ e ∈ es, e.1 ≠ e.2) :
    (es.map (fun e => (if e.1 = v then 1 else 0) + (if e.2 = v then 1 else 0))).sum =
      (es.filter (incident v)).length := by
  induction es with
  | nil => rfl
  | cons e es ih =>
      have he : e.1 ≠ e.2 := h e (List.mem_cons_self _ _)
      have ih2 := ih (fun f hf => h f (List.mem_cons_of_mem _ hf))
      by_cases h1 : e.1 = v
      · have h2 : e.2 ≠ v := fun h2 => he (h1.trans h2.symm)
        simp [List.filter_cons, incident, h1, h2, ih2]
        omega
      · by_cases h2 : e.2 = v
        · simp [List.filter_cons, incident, h1, h2, ih2]
          omega
        · simp [List.filter_cons, incident, h1, h2, ih2]

theorem degree_eq_length_filter {G : Graph} {v : String}
    (h : ∀ e ∈ G.edges, e.1 ≠ e.2) :
    degree G v = (G.edges.filter (incident v)).length :=
  sum_contrib v G.edges h

theorem otherEnd_inj {v : String} {e f : String × String}
    (he : incident v e = true) (hf : incident v f = true)
    (hel : e.1 ≠ e.2) (hfl : f.1 ≠ f.2) (hd : distinctUnordered e f) :
    otherEnd v e ≠ otherEnd v f := by
  obtain ⟨e1, e2⟩ := e
  obtain ⟨f1, f2⟩ := f
  simp only [incident, Bool.or_eq_true, decide_eq_true_eq] at he hf
  obtain ⟨hd1, hd2⟩ := hd
  simp only [ne_eq, Prod.mk.injEq, not_and] at hd1 hd2 hel hfl
  intro hco
  unfold otherEnd at hco
  simp only at hco hel hfl
  by_cases h1 : e1 = v <;> by_cases h2 : f1 = v
  · rw [if_pos h1, if_pos h2] at hco
    exact hd1 (h1.trans h2.symm) hco
  · have hf2 : f2 = v := hf.resolve_left h2
    rw [if_pos h1, if_neg h2] at hco
    exact hd2 (h1.trans hf2.symm) hco
  · have he2 : e2 = v := he.resolve_left h1
    rw [if_neg h1, if_pos h2] at hco
    exact hd2 hco (he2.trans h2.symm)
  · have he2 : e2 = v := he.resolve_left h1
    have hf2 : f2 = v := hf.resolve_left h2
    rw [if_neg h1, if_neg h2] at hco
    exact hd1 hco (he2.trans hf2.symm)

theorem degree_le {G : Graph} {v : String} (hInv : Inv G)
    (hLoop : ∀ e ∈ G.edges, e.1 ≠ e.2) (hv : v ∈ G.nodes) :
    degree G v ≤ number_of_nodes G - 1 := by
  obtain ⟨hnd, hcl, hpw⟩ := hInv
  rw [degree_eq_length_filter hLoop]
  have hmem : ∀ e ∈ G.edges.filter (incident v), e ∈ G.edges ∧ incident v e = true := by
    intro e he
    exact ⟨(List.mem_filter.mp he).1, (List.mem_filter.mp he).2⟩
  have hpl2 : (G.edges.filter (incident v)).Pairwise
      (fun e f => otherEnd v e ≠ otherEnd v f) := by
    refine (hpw.filter _).imp_of_mem ?_
    intro e f hee hff hd
    exact otherEnd_inj (hmem e hee).2 (hmem f hff).2
      (hLoop e (hmem e hee).1) (hLoop f (hmem f hff).1) hd
  have hnodup : ((G.edges.filter (incident v)).map (otherEnd v)).Nodup :=
    List.pairwise_map.mpr hpl2
  have hsub : ∀ w ∈ (G.edges.filter (incident v)).map (otherEnd v),
      w ∈ G.nodes.erase v := by
    intro w hw
    obtain ⟨e, hee, rfl⟩ := List.mem_map.mp hw
    obtain ⟨heG, hinc⟩ := hmem e hee
    have hne : otherEnd v e ≠ v := by
      unfold otherEnd
      by_cases h1 : e.1 = v
      · rw [if_pos h1]
        intro h2
        exact hLoop e heG (h1.trans h2.symm)
      · rw [if_neg h1]
        exact h1
    have htn : otherEnd v e ∈ G.nodes := by
      unfold otherEnd
      by_cases h1 : e.1 = v
      · rw [if_pos h1]
        exact (hcl e heG).2
      · rw [if_neg h1]
        exact (hcl e heG).1
    exact (hnd.mem_erase_iff).mpr ⟨hne, htn⟩
  calc (G.edges.filter (incident v)).length
      = ((G.edges.filter (incident v)).map (otherEnd v)).length :=
        (List.length_map _ _).symm
    _ = ((G.edges.filter (incident v)).map (otherEnd v)).toFinset.card :=
        (List.toFinset_card_of_nodup hnodup).symm
    _ ≤ (G.nodes.erase v).toFinset.card := by
        refine Finset.card_le_card ?_
        intro x hx
        rw [List.mem_toFinset] at hx ⊢
        exact hsub x hx
    _ ≤ (G.nodes.erase v).length := List.toFinset_card_le _
    _ = G.nodes.length - 1 := List.length_erase_of_mem hv
    _ = number_of_nodes G - 1 := rfl

theorem filter_orderedInsert (k : ℚ) (a : String × ℚ) (l : List (String × ℚ)) :
    (List.orderedInsert centGE a l).filter (fun p => decide (p.2 = k)) =
      (if a.2 = k then [a] else []) ++ l.filter (fun p => decide (p.2 = k)) := by
  induction l with
  | nil =>
      rw [List.orderedInsert]
      by_cases ha : a.2 = k <;> simp [List.filter_cons, ha]
  | cons b l ih =>
      rw [List.orderedInsert]
      by_cases hr : centGE a b
      · rw [if_pos hr]
        by_cases ha : a.2 = k <;> by_cases hb : b.2 = k <;>
          simp [List.filter_cons, ha, hb]
      · rw [if_neg hr]
        by_cases hb : b.2 = k
        · by_cases ha : a.2 = k
          · exact absurd (show centGE a b from le_of_eq (hb.trans ha.symm)) hr
          · simp [List.filter_cons, hb, ha, ih]
        · simp [List.filter_cons, hb, ih]

theorem filter_insertionSort (k : ℚ) (l : List (String × ℚ)) :
    (List.insertionSort centGE l).filter (fun p => decide (p.2 = k)) =
      l.filter (fun p => decide (p.2 = k)) := by
  induction l with
  | nil => rfl
  | cons a l ih =>
      rw [List.insertionSort, filter_orderedInsert, ih, List.filter_cons]
      by_cases ha : a.2 = k <;> simp [ha]

theorem length_degree_centrality (G : Graph) :
    (degree_centrality G).length = number_of_nodes G := by
  unfold degree_centrality
  split <;> simp [number_of_nodes]

theorem map_fst_degree_centrality (G : Graph) :
    (degree_centrality G).map Prod.fst = G.nodes := by
  unfold degree_centrality
  split <;> · rw [List.map_map]; exact List.map_id _

theorem length_sortedCentrality (G : Graph) :
    (sortedCentrality G).length = number_of_nodes G := by
  rw [sortedCentrality, List.length_insertionSort, length_degree_centrality]

theorem sorted_sortedCentrality (G : Graph) :
    List.Sorted centGE (sortedCentrality G) :=
  List.sorted_insertionSort centGE _

theorem sorted_get_top_proteins (G : Graph) (n : ℤ) :
    List.Sorted centGE (get_top_proteins G n) := by
  have hs := sorted_sortedCentrality G
  unfold get_top_proteins pyTake
  split
  · exact List.Pairwise.sublist (List.take_sublist _ _) hs
  · exact List.Pairwise.sublist (List.take_sublist _ _) hs

theorem addNode_eq_of_mem {ns : List String} {u : String} (h : u ∈ ns) :
    addNode ns u = ns := if_pos h

theorem add_edge_eq_self {G : Graph} {u v : String} (hu : u ∈ G.nodes)
    (hv : v ∈ G.nodes) (he : hasEdge G.edges u v) : add_edge G u v = G := by
  unfold add_edge
  rw [addNode_eq_of_mem hu, addNode_eq_of_mem hv, if_pos he]

/-- Two graphs with the same node set and the same unordered edge set. -/
def sameSets (G1 G2 : Graph) : Prop :=
  (∀ x, x ∈ G1.nodes ↔ x ∈ G2.nodes) ∧
    ∀ a b, hasEdge G1.edges a b ↔ hasEdge G2.edges a b

theorem sameSets_add_edge {G1 G2 : Graph} (h : sameSets G1 G2) (u v : String) :
    sameSets (add_edge G1 u v) (add_edge G2 v u) := by
  obtain ⟨hn, he⟩ := h
  constructor
  · intro x
    rw [mem_add_edge_nodes, mem_add_edge_nodes, hn x]
    tauto
  · intro a b
    unfold add_edge
    have hc : hasEdge G1.edges u v ↔ hasEdge G2.edges v u := (he u v).trans hasEdge_symm
    by_cases h1 : hasEdge G1.edges u v
    · rw [if_pos h1, if_pos (hc.mp h1)]
      exact he a b
    · rw [if_neg h1, if_neg (fun h2 => h1 (hc.mpr h2))]
      rw [hasEdge_append_single, hasEdge_append_single, he a b]
      tauto

theorem sameSets_genFrom {G1 G2 : Graph} (h : sameSets G1 G2)
    (pairs : List (String × String)) :
    sameSets (genFrom G1 pairs) (genFrom G2 (pairs.map Prod.swap)) := by
  induction pairs generalizing G1 G2 with
  | nil => exact h
  | cons p rest ih =>
      rw [List.map_cons, genFrom_cons, genFrom_cons]
      exact ih (sameSets_add_edge h p.1 p.2)

theorem sameSets_generate_network_swap (pairs : List (String × String)) :
    sameSets (generate_network pairs) (generate_network (pairs.map Prod.swap)) :=
  sameSets_genFrom ⟨fun _ => Iff.rfl, fun _ _ => Iff.rfl⟩ pairs

/-- Claim C1, as stated, is false on the code: `generate_network` does not
skip self-loop pairs.  On input `[("X","X")]` the stored edge list is
`[("X","X")]`, an edge with two equal endpoints. -/
theorem C1_counterexample :
    (generate_network [("X", "X")]).edges = [("X", "X")] := by decide

/-- Claim C1 amended: no pair is skipped — every input pair, self-loops
included, ends up in the edge set of the generated graph (up to endpoint
order), so stored edges may have equal endpoints. -/
theorem C1_theorem (pairs : List (String × String)) (u v : String)
    (h : (u, v) ∈ pairs) : (u, v) ∈ edgeSet (generate_network pairs) :=
  mem_pairs_hasEdge h

theorem C1_witness :
    ("X", "X") ∈ edgeSet (generate_network [("X", "X")]) :=
  C1_theorem [("X", "X")] "X" "X" (by decide)

/-- Claim C2, as stated, is false on the code: on the single-node graph
generated from `[("X","X")]`, `get_top_proteins` with `topK = 1` returns
the node paired with score 1, not 0 (the networkx convention for graphs
with at most one node). -/
theorem C2_counterexample :
    get_top_proteins (generate_network [("X", "X")]) 1 = [("X", 1)] ∧ (1 : ℚ) ≠ 0 :=
  ⟨rfl, one_ne_zero⟩

/-- Claim C2 amended: for every graph with at most one node, every
centrality score computed by `degree_centrality` is exactly 1, and `rank`
on a single-node graph with `topK = 1` returns that node paired with 1. -/
theorem C2_theorem (G : Graph) (u : String) (h : number_of_nodes G ≤ 1) :
    (∀ p ∈ degree_centrality G, p.2 = 1) ∧
      get_top_proteins (generate_network [(u, u)]) 1 = [(u, 1)] := by
  constructor
  · intro p hp
    unfold degree_centrality at hp
    rw [if_pos h] at hp
    obtain ⟨x, _, rfl⟩ := List.mem_map.mp hp
    rfl
  · have h1 : generate_network [(u, u)] = ⟨[u], [(u, u)]⟩ := by
      simp [generate_network, genFrom, add_edge, addNode, hasEdge]
    rw [get_top_proteins, sortedCentrality, h1]
    rfl

theorem C2_witness :
    (∀ p ∈ degree_centrality (generate_network [("X", "X")]), p.2 = 1) ∧
      get_top_proteins (generate_network [("Y", "Y")]) 1 = [("Y", 1)] :=
  C2_theorem (generate_network [("X", "X")]) "Y" (by decide)

/-- Claim C3, as stated, is false on the code: ties are not broken by
lexicographically smaller identifier.  On the graph from `[("C","B")]`
both nodes have centrality 1, yet `"C"` is listed before the
lexicographically smaller `"B"`. -/
theorem C3_counterexample :
    get_top_proteins (generate_network [("C", "B")]) 5 = [("C", 1), ("B", 1)] ∧
      ("B" : String) < "C" := by
  constructor
  · have hG : generate_network [("C", "B")] = ⟨["C", "B"], [("C", "B")]⟩ := by decide
    have hc : degree_centrality ⟨["C", "B"], [("C", "B")]⟩ = [("C", 1), ("B", 1)] := by
      simp [degree_centrality, degree, number_of_nodes]
      norm_num
    rw [get_top_proteins, sortedCentrality, hG, hc]
    simp [List.insertionSort, List.orderedInsert, centGE, pyTake]
  · rw [String.lt_iff_toList_lt]
    decide

/-- Claim C3 amended: the returned sequence is sorted by non-increasing
centrality, and equal-centrality entries keep the order of the centrality
dict (node insertion order) — the sort is stable with centrality as the
only key, with no lexicographic tie-break. -/
theorem C3_theorem (G : Graph) (n : ℤ) (k : ℚ) :
    List.Sorted centGE (get_top_proteins G n) ∧
      (sortedCentrality G).filter (fun p => decide (p.2 = k)) =
        (degree_centrality G).filter (fun p => decide (p.2 = k)) :=
  ⟨sorted_get_top_proteins G n, filter_insertionSort k _⟩

/-- Claim C4: for every graph, the density equals
`2 |E| / (|V| (|V| - 1))` when `|V| ≥ 2` and is exactly 0 when `|V| < 2`;
the embedding is a total function, so no error and no NaN arises. -/
theorem C4_theorem (G : Graph) :
    (2 ≤ number_of_nodes G →
      density G = 2 * (number_of_edges G : ℚ) /
        ((number_of_nodes G : ℚ) * ((number_of_nodes G : ℚ) - 1))) ∧
      (number_of_nodes G < 2 → density G = 0) := by
  constructor
  · intro h2
    unfold density
    by_cases hm : number_of_edges G = 0
    · rw [if_pos (Or.inl hm), hm]
      norm_num
    · have hn1 : ¬(number_of_nodes G ≤ 1) := by omega
      rw [if_neg (by tauto)]
      ring
  · intro h2
    unfold density
    rw [if_pos (Or.inr (by omega))]

theorem C4_witness :
    density (generate_network [("A", "B"), ("A", "C")]) =
        2 * (number_of_edges (generate_network [("A", "B"), ("A", "C")]) : ℚ) /
          ((number_of_nodes (generate_network [("A", "B"), ("A", "C")]) : ℚ) *
            ((number_of_nodes (generate_network [("A", "B"), ("A", "C")]) : ℚ) - 1)) ∧
      density (generate_network [("X", "X")]) = 0 :=
  ⟨(C4_theorem _).1 (by decide), (C4_theorem _).2 (by decide)⟩

/-- Claim C5, as stated, is false on the code: on the graph generated from
`[("A","A"),("A","B")]` (which stores the self-loop), node `A` gets
centrality 3 — the self-loop counts twice in the degree — which is neither
`distinct incident edges / (|V| - 1) = 2` nor inside `[0, 1]`. -/
theorem C5_counterexample :
    degree_centrality (generate_network [("A", "A"), ("A", "B")]) =
        [("A", 3), ("B", 1)] ∧ ¬((3 : ℚ) ≤ 1) := by
  constructor
  · have hG : generate_network [("A", "A"), ("A", "B")] =
        ⟨["A", "B"], [("A", "A"), ("A", "B")]⟩ := by decide
    rw [hG]
    simp [degree_centrality, degree, number_of_nodes]
    norm_num
  · norm_num

/-- Claim C5 amended: for graphs generated from pair lists without
self-loop pairs and with `|V| ≥ 2`, every computed score equals
`degree(v) / (|V| - 1)`, the degree equals the number of distinct stored
edges incident to `v`, and the score lies in `[0, 1]`. -/
theorem C5_theorem (pairs : List (String × String))
    (hp : ∀ q ∈ pairs, q.1 ≠ q.2)
    (hn : 2 ≤ number_of_nodes (generate_network pairs))
    (p : String × ℚ) (hmem : p ∈ degree_centrality (generate_network pairs)) :
    p.2 = (degree (generate_network pairs) p.1 : ℚ) /
        ((number_of_nodes (generate_network pairs) : ℚ) - 1) ∧
      degree (generate_network pairs) p.1 =
        ((generate_network pairs).edges.filter (incident p.1)).length ∧
      0 ≤ p.2 ∧ p.2 ≤ 1 := by
  have hloop : ∀ e ∈ (generate_network pairs).edges, e.1 ≠ e.2 := by
    refine noLoops_genFrom ?_ hp
    intro e he
    cases he
  have hInv : Inv (generate_network pairs) := inv_generate_network pairs
  unfold degree_centrality at hmem
  rw [if_neg (by omega)] at hmem
  obtain ⟨x, hx, rfl⟩ := List.mem_map.mp hmem
  have hpos : (0 : ℚ) < (number_of_nodes (generate_network pairs) : ℚ) - 1 := by
    have h2 : (2 : ℚ) ≤ (number_of_nodes (generate_network pairs) : ℚ) := by
      exact_mod_cast hn
    linarith
  have hdle : (degree (generate_network pairs) x : ℚ) ≤
      (number_of_nodes (generate_network pairs) : ℚ) - 1 := by
    have h1 : degree (generate_network pairs) x ≤
        number_of_nodes (generate_network pairs) - 1 := degree_le hInv hloop hx
    have h2 : (1 : ℕ) ≤ number_of_nodes (generate_network pairs) := by omega
    calc (degree (generate_network pairs) x : ℚ)
        ≤ ((number_of_nodes (generate_network pairs) - 1 : ℕ) : ℚ) := by exact_mod_cast h1
      _ = (number_of_nodes (generate_network pairs) : ℚ) - 1 := by
          rw [Nat.cast_sub h2, Nat.cast_one]
  refine ⟨mul_one_div _ _, degree_eq_length_filter hloop, ?_, ?_⟩
  · exact mul_nonneg (Nat.cast_nonneg _) (le_of_lt (one_div_pos.mpr hpos))
  · show (degree (generate_network pairs) x : ℚ) * (1 / _) ≤ 1
    rw [mul_one_div]
    exact (div_le_one hpos).mpr hdle

theorem C5_witness :
    (1 : ℚ) = (degree (generate_network [("A", "B"), ("A", "C")]) "A" : ℚ) /
        ((number_of_nodes (generate_network [("A", "B"), ("A", "C")]) : ℚ) - 1) ∧
      degree (generate_network [("A", "B"), ("A", "C")]) "A" =
        ((generate_network [("A", "B"), ("A", "C")]).edges.filter (incident "A")).length ∧
      (0 : ℚ) ≤ 1 ∧ (1 : ℚ) ≤ 1 :=
  C5_theorem [("A", "B"), ("A", "C")] (by decide) (by decide) ("A", 1) (by
    have hG : generate_network [("A", "B"), ("A", "C")] =
        ⟨["A", "B", "C"], [("A", "B"), ("A", "C")]⟩ := by decide
    have hc : degree_centrality ⟨["A", "B", "C"], [("A", "B"), ("A", "C")]⟩ =
        [("A", 1), ("B", 1/2), ("C", 1/2)] := by
      simp [degree_centrality, degree, number_of_nodes]
      norm_num
    rw [hG, hc]
    simp)

/-- Claim C6: edge insertion is idempotent and order-insensitive —
appending an already-present pair (in either endpoint order) leaves the
generated graph unchanged, and building from the endpoint-reversed pair
list yields the same node set and the same unordered edge set. -/
theorem C6_theorem (pairs : List (String × String)) (u v : String) :
    ((u, v) ∈ pairs →
      generate_network (pairs ++ [(u, v)]) = generate_network pairs ∧
        generate_network (pairs ++ [(v, u)]) = generate_network pairs) ∧
      nodeSet (generate_network (pairs.map Prod.swap)) = nodeSet (generate_network pairs) ∧
      edgeSet (generate_network (pairs.map Prod.swap)) = edgeSet (generate_network pairs) := by
  refine ⟨?_, ?_, ?_⟩
  · intro h
    have hmemn := mem_pairs_nodes (G := ⟨[], []⟩) h
    have hedge := mem_pairs_hasEdge (G := ⟨[], []⟩) h
    constructor
    · rw [generate_network, genFrom_append]
      exact add_edge_eq_self hmemn.1 hmemn.2 hedge
    · rw [generate_network, genFrom_append]
      exact add_edge_eq_self hmemn.2 hmemn.1 (hasEdge_symm.mp hedge)
  · obtain ⟨hn, _⟩ := sameSets_generate_network_swap pairs
    ext x
    exact (hn x).symm
  · obtain ⟨_, he⟩ := sameSets_generate_network_swap pairs
    ext p
    exact (he p.1 p.2).symm

theorem C6_witness :
    generate_network ([("A", "B")] ++ [("A", "B")]) = generate_network [("A", "B")] ∧
      generate_network ([("A", "B")] ++ [("B", "A")]) = generate_network [("A", "B")] :=
  (C6_theorem [("A", "B")] "A" "B").1 (by decide)

/-- Claim C7: for `topK ≥ 1` the returned sequence has length exactly
`min topK |V|`; when `topK` exceeds `|V|` all nodes are returned. -/
theorem C7_theorem (G : Graph) (n : ℤ) (h : 1 ≤ n) :
    (get_top_proteins G n).length = min n.toNat (number_of_nodes G) := by
  unfold get_top_proteins pyTake
  rw [if_pos (le_trans zero_le_one h), List.length_take, length_sortedCentrality]

theorem C7_witness :
    (get_top_proteins (generate_network [("A", "B")]) 5).length =
      min (Int.toNat 5) (number_of_nodes (generate_network [("A", "B")])) :=
  C7_theorem _ 5 (by decide)

/-- Claim C8, as stated, is false on the code: for negative `topK` the
Python slice `[:n]` does not return the empty sequence.  On the graph from
`[("A","B"),("A","C")]` with `topK = -1` the result keeps two entries. -/
theorem C8_counterexample :
    get_top_proteins (generate_network [("A", "B"), ("A", "C")]) (-1) =
        [("A", 1), ("B", 1/2)] ∧
      get_top_proteins (generate_network [("A", "B"), ("A", "C")]) (-1) ≠ [] := by
  have h : get_top_proteins (generate_network [("A", "B"), ("A", "C")]) (-1) =
      [("A", 1), ("B", 1/2)] := by
    have hG : generate_network [("A", "B"), ("A", "C")] =
        ⟨["A", "B", "C"], [("A", "B"), ("A", "C")]⟩ := by decide
    have hc : degree_centrality ⟨["A", "B", "C"], [("A", "B"), ("A", "C")]⟩ =
        [("A", 1), ("B", 1/2), ("C", 1/2)] := by
      simp [degree_centrality, degree, number_of_nodes]
      norm_num
    rw [get_top_proteins, sortedCentrality, hG, hc]
    simp [List.insertionSort, List.orderedInsert, centGE, pyTake]
    norm_num
    rfl
  refine ⟨h, ?_⟩
  rw [h]
  simp

/-- Claim C8 amended: `topK = 0` yields the empty sequence, but a negative
`topK` yields the first `max(|V| + topK, 0)` entries (Python slice
semantics); the function is total, so it never raises. -/
theorem C8_theorem (G : Graph) (n : ℤ) :
    (n = 0 → get_top_proteins G n = []) ∧
      (n < 0 → (get_top_proteins G n).length =
        ((number_of_nodes G : ℤ) + n).toNat) := by
  constructor
  · rintro rfl
    unfold get_top_proteins pyTake
    simp
  · intro hneg
    unfold get_top_proteins pyTake
    rw [if_neg (by omega), List.length_take, length_sortedCentrality]
    omega

theorem C8_witness :
    (get_top_proteins (generate_network [("A", "B")]) 0 = []) ∧
      (get_top_proteins (generate_network [("A", "B")]) (-1)).length =
        ((number_of_nodes (generate_network [("A", "B")]) : ℤ) + (-1)).toNat :=
  ⟨(C8_theorem (generate_network [("A", "B")]) 0).1 rfl,
    (C8_theorem (generate_network [("A", "B")]) (-1)).2 (by decide)⟩

/-- Claim C9, as stated, is false on the code: on input `[("X","X")]` the
node `X` is registered, but the edge set is not empty — the self-loop is
stored. -/
theorem C9_counterexample :
    (generate_network [("X", "X")]).nodes = ["X"] ∧
      (generate_network [("X", "X")]).edges ≠ [] := by decide

/-- Claim C9 amended: every endpoint of every input pair is registered in
the node set; for input `[("X","X")]` the graph has node list `["X"]` and
edge list `[("X","X")]` (node registered, self-loop stored, not dropped). -/
theorem C9_theorem (pairs : List (String × String)) (u v : String)
    (h : (u, v) ∈ pairs) :
    (u ∈ nodeSet (generate_network pairs) ∧ v ∈ nodeSet (generate_network pairs)) ∧
      generate_network [("X", "X")] = ⟨["X"], [("X", "X")]⟩ :=
  ⟨mem_pairs_nodes h, by decide⟩

theorem C9_witness :
    (("X" : String) ∈ nodeSet (generate_network [("X", "X")]) ∧
      ("X" : String) ∈ nodeSet (generate_network [("X", "X")])) ∧
      generate_network [("X", "X")] = ⟨["X"], [("X", "X")]⟩ :=
  C9_theorem [("X", "X")] "X" "X" (by decide)

/-- Claim C10: `get_top_proteins` is a pure function of the graph — its
value is the stable descending sort of the centrality items truncated by
the slice — the centrality dict lists nodes in graph insertion order, and
equal-centrality entries keep that order through the sort (stability). -/
theorem C10_theorem (G : Graph) (n : ℤ) (k : ℚ) :
    get_top_proteins G n = pyTake n (sortedCentrality G) ∧
      (degree_centrality G).map Prod.fst = G.nodes ∧
      (sortedCentrality G).filter (fun p => decide (p.2 = k)) =
        (degree_centrality G).filter (fun p => decide (p.2 = k)) :=
  ⟨rfl, map_fst_degree_centrality G, filter_insertionSort k _⟩

end Lab2
